import Mathlib

/-!
Verification of the VocabMaster server (Express + SQLite, two coexisting
implementations: the inner copy with the streak-based mistake policy and the
reading importer, and `server.js` with the decrementing-count variants).

The relevant handlers are shallowly embedded: each SQLite table becomes a list
of rows, each route handler becomes a pure function from the store (and the
request data) to an updated store and a response.  JS numbers that only ever
hold non-negative integers are modelled as `Nat`; the one place where the code
can produce `NaN` (the reading score `Math.round((0/0) * 100)`) is modelled by
an explicit `JsNum` type.
-/

namespace VocabMaster

/-! ### Mistake tracker (inner copy: streak policy)

Table: `mistakes (id INTEGER PRIMARY KEY AUTOINCREMENT, word_id INTEGER,
mistake_count INTEGER DEFAULT 1, correct_streak INTEGER DEFAULT 0, ...)`.
The store keeps the rows in insertion (rowid) order together with the next
AUTOINCREMENT id, so `db.get ... WHERE word_id = ?` is `List.find?`. -/

structure MistakeRow where
  id : Nat
  word_id : Nat
  mistake_count : Nat
  correct_streak : Nat
  deriving Repr, DecidableEq

structure MStore where
  rows : List MistakeRow
  nextId : Nat
  deriving Repr, DecidableEq

/-- Responses of the mistake endpoints (status and the JSON payload fields the
claims talk about). -/
inductive MResp where
  /-- 400, `Word ID is required` -/
  | badRequest
  /-- 404, `Mistake not found` -/
  | notFound
  /-- JSON `{id, word_id, mistake_count, correct_streak}` -/
  | okRow (id word_id mistake_count correct_streak : Nat)
  /-- `Word removed from mistakes list` -/
  | removed
  /-- `Mistake deleted successfully` / `All mistakes deleted successfully` -/
  | deleted
  deriving Repr, DecidableEq

/-- `db.get('SELECT * FROM mistakes WHERE word_id = ?')`. -/
def findMistake (s : MStore) (w : Nat) : Option MistakeRow :=
  s.rows.find? (fun r => r.word_id = w)

/-- `POST /api/mistakes`: if a row for `word_id` exists,
`UPDATE mistakes SET mistake_count = mistake_count + 1, correct_streak = 0
WHERE id = ?`; otherwise `INSERT INTO mistakes (word_id) VALUES (?)` (column
defaults give `mistake_count = 1`, `correct_streak = 0`).  A missing/zero
`word_id` is falsy and rejected with 400. -/
def addMistake (s : MStore) (w : Nat) : MStore × MResp :=
  if w = 0 then (s, .badRequest)
  else
    match s.rows.find? (fun r => r.word_id = w) with
    | some row =>
        ({ s with
            rows := s.rows.map fun r =>
              if r.id = row.id then
                { r with mistake_count := r.mistake_count + 1, correct_streak := 0 }
              else r },
         .okRow row.id w (row.mistake_count + 1) 0)
    | none =>
        ({ rows := s.rows ++ [⟨s.nextId, w, 1, 0⟩], nextId := s.nextId + 1 },
         .okRow s.nextId w 1 0)

/-- `POST /api/mistakes/correct/:wordId`: look the row up; absent → 404.
`updatedStreak = row.correct_streak + 1`; if `updatedStreak >= 2` the row is
deleted (`DELETE FROM mistakes WHERE id = ?`), otherwise
`UPDATE mistakes SET correct_streak = ? WHERE id = ?`. -/
def recordCorrect (s : MStore) (w : Nat) : MStore × MResp :=
  match s.rows.find? (fun r => r.word_id = w) with
  | none => (s, .notFound)
  | some row =>
      if row.correct_streak + 1 ≥ 2 then
        ({ s with rows := s.rows.filter (fun r => ¬ r.id = row.id) }, .removed)
      else
        ({ s with
            rows := s.rows.map fun r =>
              if r.id = row.id then { r with correct_streak := row.correct_streak + 1 }
              else r },
         .okRow row.id row.word_id row.mistake_count (row.correct_streak + 1))

/-- `DELETE /api/mistakes/:id` (404 when `this.changes === 0`). -/
def deleteMistake (s : MStore) (i : Nat) : MStore × MResp :=
  if s.rows.any (fun r => r.id = i) then
    ({ s with rows := s.rows.filter (fun r => ¬ r.id = i) }, .deleted)
  else (s, .notFound)

/-- `DELETE /api/mistakes`. -/
def clearMistakes (s : MStore) : MStore × MResp :=
  ({ s with rows := [] }, .deleted)

/-- The empty database created by `initializeDatabase` (AUTOINCREMENT starts
at 1). -/
def emptyMStore : MStore := ⟨[], 1⟩

/-- States of the mistakes table reachable by the four mistake-tracker
operations from the empty table. -/
inductive MReach : MStore → Prop
  | init : MReach emptyMStore
  | add (s : MStore) (w : Nat) : MReach s → MReach (addMistake s w).1
  | correct (s : MStore) (w : Nat) : MReach s → MReach (recordCorrect s w).1
  | del (s : MStore) (i : Nat) : MReach s → MReach (deleteMistake s i).1
  | clear (s : MStore) : MReach s → MReach (clearMistakes s).1

/-- The invariant of claim C3: at most one row per `word_id` (expressed as
pairwise distinct `word_id`s), `mistake_count ≥ 1` and
`correct_streak ∈ [0, 2)` for every row. -/
def MInv (s : MStore) : Prop :=
  s.rows.Pairwise (fun a b => a.word_id ≠ b.word_id) ∧
    ∀ r ∈ s.rows, 1 ≤ r.mistake_count ∧ r.correct_streak < 2

lemma pairwise_wordId_map (rows : List MistakeRow) (f : MistakeRow → MistakeRow)
    (hf : ∀ r, (f r).word_id = r.word_id)
    (h : rows.Pairwise (fun a b => a.word_id ≠ b.word_id)) :
    (rows.map f).Pairwise (fun a b => a.word_id ≠ b.word_id) := by
  refine List.Pairwise.map f (fun a b hab => ?_) h
  simpa [hf] using hab

lemma addMistake_inv (s : MStore) (w : Nat) (h : MInv s) : MInv (addMistake s w).1 := by
  unfold addMistake
  by_cases hw : w = 0
  · simpa [hw] using h
  · rw [if_neg hw]
    cases hfind : s.rows.find? (fun r => r.word_id = w) with
    | some row =>
        refine ⟨?_, ?_⟩
        · refine pairwise_wordId_map _ _ (fun r => ?_) h.1
          by_cases hid : r.id = row.id <;> simp [hid]
        · intro r' hr'
          obtain ⟨r, hr, rfl⟩ := List.mem_map.mp hr'
          by_cases hid : r.id = row.id
          · simp [hid]
          · simp only [hid, if_neg, ite_false]
            exact h.2 r hr
    | none =>
        refine ⟨?_, ?_⟩
        · rw [List.pairwise_append]
          refine ⟨h.1, by simp, ?_⟩
          intro a ha b hb
          simp only [List.mem_singleton] at hb
          subst hb
          have := List.find?_eq_none.mp hfind a ha
          simpa using this
        · intro r hr
          rcases List.mem_append.mp hr with h1 | h2
          · exact h.2 r h1
          · simp only [List.mem_singleton] at h2
            subst h2
            simp

lemma recordCorrect_inv (s : MStore) (w : Nat) (h : MInv s) : MInv (recordCorrect s w).1 := by
  unfold recordCorrect
  cases hfind : s.rows.find? (fun r => r.word_id = w) with
  | none => exact h
  | some row =>
      dsimp only
      by_cases hstreak : row.correct_streak + 1 ≥ 2
      · rw [if_pos hstreak]
        refine ⟨h.1.sublist (List.filter_sublist _), ?_⟩
        intro r hr
        exact h.2 r (List.mem_of_mem_filter hr)
      · rw [if_neg hstreak]
        refine ⟨?_, ?_⟩
        · refine pairwise_wordId_map _ _ (fun r => ?_) h.1
          by_cases hid : r.id = row.id <;> simp [hid]
        · intro r' hr'
          obtain ⟨r, hr, rfl⟩ := List.mem_map.mp hr'
          by_cases hid : r.id = row.id
          · simp only [hid, ite_true]
            exact ⟨(h.2 r hr).1, by omega⟩
          · simp only [hid, ite_false]
            exact h.2 r hr

lemma deleteMistake_inv (s : MStore) (i : Nat) (h : MInv s) : MInv (deleteMistake s i).1 := by
  unfold deleteMistake
  by_cases hany : s.rows.any (fun r => r.id = i)
  · rw [if_pos hany]
    refine ⟨h.1.sublist (List.filter_sublist _), ?_⟩
    intro r hr
    exact h.2 r (List.mem_of_mem_filter hr)
  · rw [if_neg hany]
    exact h

lemma clearMistakes_inv (s : MStore) (_h : MInv s) : MInv (clearMistakes s).1 := by
  exact ⟨List.Pairwise.nil, by simp [clearMistakes]⟩

lemma minv_of_reach (s : MStore) (h : MReach s) : MInv s := by
  induction h with
  | init => exact ⟨List.Pairwise.nil, by simp [emptyMStore]⟩
  | add s w _ ih => exact addMistake_inv s w ih
  | correct s w _ ih => exact recordCorrect_inv s w ih
  | del s i _ ih => exact deleteMistake_inv s i ih
  | clear s _ ih => exact clearMistakes_inv s ih

/-- In a list whose `word_id`s are pairwise distinct, two members with the
same `word_id` are the same row. -/
lemma unique_of_pairwise_wordId {rows : List MistakeRow}
    (h : rows.Pairwise (fun a b => a.word_id ≠ b.word_id))
    {r row : MistakeRow} (hr : r ∈ rows) (hrow : row ∈ rows)
    (e : r.word_id = row.word_id) : r = row := by
  induction rows with
  | nil => cases hr
  | cons a l ih =>
      rw [List.pairwise_cons] at h
      rw [List.mem_cons] at hr hrow
      rcases hr with rfl | hr <;> rcases hrow with rfl | hrow
      · rfl
      · exact absurd e (h.1 row hrow)
      · exact absurd e.symm (h.1 r hr)
      · exact ih h.2 hr hrow

/-- `find?` by `word_id` commutes with a row-update that preserves `word_id`. -/
lemma find?_wordId_map (rows : List MistakeRow) (w : Nat) (f : MistakeRow → MistakeRow)
    (hf : ∀ r, (f r).word_id = r.word_id) :
    (rows.map f).find? (fun r => r.word_id = w) =
      (rows.find? (fun r => r.word_id = w)).map f := by
  rw [List.find?_map]
  have he : ((fun r => decide (r.word_id = w)) ∘ f) = (fun r => decide (r.word_id = w)) := by
    funext r
    simp [Function.comp, hf]
  rw [he]

/-- C3: every state of the mistakes table reachable by the mistake-tracker
operations (add mistake, record correct, delete one, clear all) has at most
one row per `word_id`, and every row has `mistake_count ≥ 1` and
`correct_streak ∈ {0, 1}`. -/
theorem mistakes_reachable_invariant (s : MStore) (h : MReach s) :
    s.rows.Pairwise (fun a b => a.word_id ≠ b.word_id) ∧
      ∀ r ∈ s.rows, 1 ≤ r.mistake_count ∧ r.correct_streak < 2 :=
  minv_of_reach s h

theorem mistakes_reachable_invariant_witness :
    (addMistake emptyMStore 5).1.rows.Pairwise (fun a b => a.word_id ≠ b.word_id) ∧
      ∀ r ∈ (addMistake emptyMStore 5).1.rows, 1 ≤ r.mistake_count ∧ r.correct_streak < 2 :=
  mistakes_reachable_invariant _ (MReach.add _ 5 MReach.init)

/-- C1: for a word in the Flagged state (`findMistake` returns a row),
recording a correct answer increments `correct_streak`; when the incremented
streak reaches the threshold 2 the row is deleted and the word has no
mistakes row any more, otherwise the row remains with the updated streak (and
unchanged `mistake_count`).  The final conjunct is the concrete scenario:
from Normal (empty table), one wrong answer gives a row with
`mistake_count = 1`, `correct_streak = 0`, and two consecutive correct
answers remove the row. -/
theorem mistake_correct_promotion (s : MStore) (w : Nat) (row : MistakeRow)
    (hpw : s.rows.Pairwise (fun a b => a.word_id ≠ b.word_id))
    (hf : findMistake s w = some row) :
    (2 ≤ row.correct_streak + 1 →
        (recordCorrect s w).1.rows = s.rows.filter (fun r => ¬ r.id = row.id) ∧
          findMistake (recordCorrect s w).1 w = none) ∧
    (row.correct_streak + 1 < 2 →
        findMistake (recordCorrect s w).1 w =
          some { row with correct_streak := row.correct_streak + 1 }) ∧
    (findMistake (addMistake emptyMStore 1).1 1 = some ⟨1, 1, 1, 0⟩ ∧
      (recordCorrect (recordCorrect (addMistake emptyMStore 1).1 1).1 1).1.rows = []) := by
  have hf' : s.rows.find? (fun r => r.word_id = w) = some row := hf
  have hrowmem : row ∈ s.rows := List.mem_of_find?_eq_some hf'
  have hroww : row.word_id = w := by simpa using List.find?_some hf'
  refine ⟨?_, ?_, by decide⟩
  · intro h2
    unfold recordCorrect
    rw [hf']
    dsimp only
    rw [if_pos h2]
    refine ⟨rfl, ?_⟩
    unfold findMistake
    dsimp only
    refine List.find?_eq_none.mpr ?_
    intro r hr
    have hmem := List.mem_of_mem_filter hr
    have hid : ¬ r.id = row.id := by
      have := List.of_mem_filter hr
      simpa using this
    simp only [decide_eq_true_eq]
    intro e
    exact hid (congrArg MistakeRow.id
      (unique_of_pairwise_wordId hpw hmem hrowmem (by rw [e, hroww])))
  · intro h1
    unfold recordCorrect
    rw [hf']
    dsimp only
    rw [if_neg (by omega : ¬ row.correct_streak + 1 ≥ 2)]
    unfold findMistake
    dsimp only
    rw [find?_wordId_map _ w _
        (fun r => by by_cases hid : r.id = row.id <;> simp [hid]), hf']
    simp

theorem mistake_correct_promotion_witness :
    findMistake (recordCorrect (addMistake emptyMStore 3).1 3).1 3 = some ⟨1, 3, 1, 1⟩ := by
  have h := mistake_correct_promotion (addMistake emptyMStore 3).1 3 ⟨1, 3, 1, 0⟩
    (by constructor <;> simp) (by rfl)
  simpa using h.2.1 (by decide)

/-- C2: recording a wrong answer via `POST /api/mistakes` with a non-falsy
`word_id`: with no existing row, a row `(mistake_count = 1,
correct_streak = 0)` is appended; with an existing row, its `mistake_count`
is incremented by exactly 1 and `correct_streak` is reset to 0. -/
theorem mistake_wrong_answer (s : MStore) (w : Nat) (hw : w ≠ 0) :
    (findMistake s w = none →
        (addMistake s w).1.rows = s.rows ++ [⟨s.nextId, w, 1, 0⟩]) ∧
    (∀ row, findMistake s w = some row →
        findMistake (addMistake s w).1 w =
          some { row with mistake_count := row.mistake_count + 1, correct_streak := 0 }) := by
  constructor
  · intro hnone
    have hf' : s.rows.find? (fun r => r.word_id = w) = none := hnone
    unfold addMistake
    rw [if_neg hw, hf']
  · intro row hsome
    have hf' : s.rows.find? (fun r => r.word_id = w) = some row := hsome
    unfold addMistake findMistake
    rw [if_neg hw, hf']
    dsimp only
    rw [find?_wordId_map _ w _
        (fun r => by by_cases hid : r.id = row.id <;> simp [hid]), hf']
    simp

theorem mistake_wrong_answer_witness :
    (addMistake emptyMStore 2).1.rows = emptyMStore.rows ++ [⟨emptyMStore.nextId, 2, 1, 0⟩] :=
  (mistake_wrong_answer emptyMStore 2 (by decide)).1 rfl

/-! ### Word store

Table `words (id, english, chinese, example, familiarity, exposure,
added_date)`; in `server.js` the `english` column is `NOT NULL UNIQUE`
(default BINARY collation, i.e. case-sensitive). -/

structure Word where
  id : Nat
  english : String
  chinese : String
  «example» : String
  added_date : String
  familiarity : Nat
  exposure : Nat
  deriving Repr, DecidableEq

/-- `find?` commutes with mapping an element-update that preserves the
searched predicate. -/
lemma find?_map_of_pres {α : Type} (l : List α) (p : α → Bool) (f : α → α)
    (hf : ∀ x, p (f x) = p x) :
    (l.map f).find? p = (l.find? p).map f := by
  rw [List.find?_map]
  have he : (p ∘ f) = p := funext fun x => hf x
  rw [he]

def findWord (ws : List Word) (i : Nat) : Option Word :=
  ws.find? (fun w => w.id = i)

/-- `POST /api/words/:id/update-stats` (inner copy): inside one transaction,
`UPDATE words SET exposure = exposure + 1 WHERE id = ?`, then — only if
`isCorrect` — `UPDATE words SET familiarity = familiarity + 1 WHERE id = ?`. -/
def updateStats (ws : List Word) (i : Nat) (isCorrect : Bool) : List Word :=
  let ws1 := ws.map fun w => if w.id = i then { w with exposure := w.exposure + 1 } else w
  if isCorrect then
    ws1.map fun w => if w.id = i then { w with familiarity := w.familiarity + 1 } else w
  else ws1

/-- C7: for an existing word, `update-stats` with `isCorrect = true` adds 1
to both `exposure` and `familiarity`; with `isCorrect = false` it adds 1 to
`exposure` only; every other field of the word is unchanged (the resulting
row is exactly the old row with those two counters updated). -/
theorem updateStats_effect (ws : List Word) (i : Nat) (c : Bool) (w : Word)
    (hw : findWord ws i = some w) :
    findWord (updateStats ws i c) i =
      some { w with exposure := w.exposure + 1,
                    familiarity := w.familiarity + (if c then 1 else 0) } := by
  have hw' : ws.find? (fun x => x.id = i) = some w := hw
  unfold updateStats findWord
  have hp1 : ∀ x : Word, (fun y : Word => decide (y.id = i))
      (if x.id = i then { x with exposure := x.exposure + 1 } else x) =
      decide (x.id = i) := by
    intro x
    by_cases hx : x.id = i <;> simp [hx]
  have hp2 : ∀ x : Word, (fun y : Word => decide (y.id = i))
      (if x.id = i then { x with familiarity := x.familiarity + 1 } else x) =
      decide (x.id = i) := by
    intro x
    by_cases hx : x.id = i <;> simp [hx]
  cases c with
  | false =>
      simp only [Bool.false_eq_true, if_false]
      rw [find?_map_of_pres _ _ _ hp1, hw']
      have hwid : w.id = i := by simpa using List.find?_some hw'
      simp [hwid]
  | true =>
      simp only [if_true]
      rw [find?_map_of_pres _ _ _ hp2, find?_map_of_pres _ _ _ hp1, hw']
      have hwid : w.id = i := by simpa using List.find?_some hw'
      simp [hwid]

theorem updateStats_effect_witness :
    findWord (updateStats [⟨1, "apple", "苹果", "", "", 4, 7⟩] 1 true) 1 =
      some ⟨1, "apple", "苹果", "", "", 5, 8⟩ := by
  have h := updateStats_effect [⟨1, "apple", "苹果", "", "", 4, 7⟩] 1 true
    ⟨1, "apple", "苹果", "", "", 4, 7⟩ (by rfl)
  simpa using h

/-! ### `PUT /api/words/:id` -/

inductive WResp where
  /-- 400, missing english/chinese -/
  | badRequest
  /-- 409, `该单词已存在` -/
  | conflict
  /-- 404, word not found -/
  | notFound
  /-- 500, storage error (`err.message`, e.g. a UNIQUE constraint failure) -/
  | storageError
  /-- 200, the updated fields echoed back -/
  | okUpdate (id : Nat) (english chinese «example» : String)
  deriving Repr, DecidableEq

/-- `PUT /api/words/:id` in `server.js`: after the required-fields check, a
duplicate pre-check `SELECT id FROM words WHERE english = ? AND id != ?`
(case-sensitive `=`) answers 409; then `UPDATE ... WHERE id = ?` answers 404
when `this.changes === 0`. -/
def updateWord (ws : List Word) (i : Nat) (english chinese ex : String) :
    List Word × WResp :=
  if english = "" ∨ chinese = "" then (ws, .badRequest)
  else
    match ws.find? (fun w => w.english = english ∧ ¬ w.id = i) with
    | some _ => (ws, .conflict)
    | none =>
        if ws.any (fun w => w.id = i) then
          (ws.map fun w =>
              if w.id = i then
                { w with english := english, chinese := chinese, «example» := ex }
              else w,
           .okUpdate i english chinese ex)
        else (ws, .notFound)

/-- `PUT /api/words/:id` in the inner copy: no duplicate pre-check; the
`UPDATE` itself either hits the `english` UNIQUE constraint (callback `err`,
answered 500), updates the row (200), or changes nothing (404). -/
def updateWordInner (ws : List Word) (i : Nat) (english chinese ex : String) :
    List Word × WResp :=
  if english = "" ∨ chinese = "" then (ws, .badRequest)
  else if ws.any (fun w => w.id = i) then
    if ws.any (fun w => w.english = english ∧ ¬ w.id = i) then (ws, .storageError)
    else
      (ws.map fun w =>
          if w.id = i then
            { w with english := english, chinese := chinese, «example» := ex }
          else w,
       .okUpdate i english chinese ex)
  else (ws, .notFound)

/-- JS `String.prototype.toLowerCase` restricted to ASCII letters. -/
def jsLower (s : String) : String := ⟨s.data.map Char.toLower⟩

/-- Store used by the C9 counterexample: two words whose `english` values are
case-insensitively distinct from each other. -/
def wordStoreCE : List Word :=
  [⟨1, "Apple", "苹果", "", "", 0, 0⟩, ⟨2, "banana", "香蕉", "", "", 0, 0⟩]

/-- C9 counterexample: `"apple"` is a case-insensitive duplicate of word 1's
`"Apple"`, yet updating word 2 to `"apple"` answers 200 and changes the store
(both variants); and with an absent id 99 but an exact duplicate `"Apple"`,
the `server.js` variant answers 409, not 404, while the inner copy answers a
500 storage error, never 409. -/
theorem word_update_conflict_counterexample :
    jsLower "apple" = jsLower "Apple" ∧
    (updateWord wordStoreCE 2 "apple" "蘋果" "").2 ≠ WResp.conflict ∧
    (updateWord wordStoreCE 2 "apple" "蘋果" "").1 ≠ wordStoreCE ∧
    (updateWordInner wordStoreCE 2 "apple" "蘋果" "").2 ≠ WResp.conflict ∧
    (updateWord wordStoreCE 99 "Apple" "苹果" "").2 ≠ WResp.notFound ∧
    (updateWordInner wordStoreCE 2 "Apple" "蘋果" "").2 ≠ WResp.conflict := by
  refine ⟨rfl, ?_, ?_, ?_, ?_, ?_⟩ <;> decide

/-- C9 as amended: duplicate detection is exact-case and, in `server.js`,
checked before existence: if another word (different id) has exactly the same
`english`, the update fails with Conflict 409 and the store is unchanged
(even when the id itself is absent); otherwise, if no word with the id
exists, it fails with NotFound 404 and the store is unchanged.  In the inner
copy there is no 409 path: an exact duplicate on an existing id surfaces as a
500 storage error (UNIQUE constraint), and an absent id gives 404. -/
theorem word_update_errors (ws : List Word) (i : Nat) (e c ex : String)
    (he : e ≠ "") (hc : c ≠ "") :
    ((∃ w ∈ ws, w.english = e ∧ w.id ≠ i) → updateWord ws i e c ex = (ws, .conflict)) ∧
    ((∀ w ∈ ws, ¬(w.english = e ∧ w.id ≠ i)) → (∀ w ∈ ws, w.id ≠ i) →
        updateWord ws i e c ex = (ws, .notFound)) ∧
    ((∃ w ∈ ws, w.id = i) → (∃ w ∈ ws, w.english = e ∧ w.id ≠ i) →
        updateWordInner ws i e c ex = (ws, .storageError)) ∧
    ((∀ w ∈ ws, w.id ≠ i) → updateWordInner ws i e c ex = (ws, .notFound)) := by
  have hnotempty : ¬ (e = "" ∨ c = "") := by
    rintro (h | h)
    · exact he h
    · exact hc h
  refine ⟨?_, ?_, ?_, ?_⟩
  · rintro ⟨w, hwmem, hwe, hwi⟩
    unfold updateWord
    rw [if_neg hnotempty]
    cases hfind : ws.find? (fun w => w.english = e ∧ ¬ w.id = i) with
    | some _ => rfl
    | none =>
        exfalso
        have := List.find?_eq_none.mp hfind w hwmem
        simp only [decide_eq_true_eq, not_and] at this
        exact absurd hwi (by simpa [hwe] using this)
  · intro hnone hid
    unfold updateWord
    rw [if_neg hnotempty]
    have hfind : ws.find? (fun w => w.english = e ∧ ¬ w.id = i) = none := by
      refine List.find?_eq_none.mpr ?_
      intro w hwmem
      have := hnone w hwmem
      simpa using this
    rw [hfind]
    have hany : ws.any (fun w => w.id = i) = false := by
      rw [List.any_eq_false]
      intro w hwmem
      simpa using hid w hwmem
    simp [hany]
  · rintro ⟨w, hwmem, hwi⟩ ⟨w2, hw2mem, hw2e, hw2i⟩
    unfold updateWordInner
    rw [if_neg hnotempty]
    have hany : ws.any (fun w => w.id = i) = true := by
      rw [List.any_eq_true]
      exact ⟨w, hwmem, by simpa using hwi⟩
    have hdup : ws.any (fun w => w.english = e ∧ ¬ w.id = i) = true := by
      rw [List.any_eq_true]
      exact ⟨w2, hw2mem, by simp [hw2e, hw2i]⟩
    simp only [hany, hdup, if_true]
  · intro hid
    unfold updateWordInner
    rw [if_neg hnotempty]
    have hany : ws.any (fun w => w.id = i) = false := by
      rw [List.any_eq_false]
      intro w hwmem
      simpa using hid w hwmem
    simp [hany]

theorem word_update_errors_witness :
    updateWord wordStoreCE 3 "pear" "梨" "" = (wordStoreCE, WResp.notFound) :=
  (word_update_errors wordStoreCE 3 "pear" "梨" "" (by decide) (by decide)).2.1
    (by decide) (by decide)

/-! ### Reading passage importer (`POST /api/reading/import`, inner copy)

The handler splits the request text on
`/\s*阅读文本\s*|\s*选择题\s*|\s*答案\s*/`, parses the question section with
`/(\d+)[.、]\s*(.*?)\s*A[.、]\s*(.*?)\s*B[.、]\s*(.*?)\s*C[.、]\s*(.*?)(?=\d+[.、]|$)/gs`
and the answer section with `/(\d+)\s*[.、]\s*([ABC])\s*/g`, validates, and
persists one passage plus its questions.

Strings are modelled as `List Char`.  The regexes are modelled by scanners
that reproduce the engine's leftmost-match backtracking semantics for these
patterns; recursions whose argument shrinks by a computed amount take a fuel
argument set to the list length (which makes the fuel-0 case unreachable). -/

/-- JS `\s` (the regex whitespace class): space, `\t`, `\n`, `\v`, `\f`,
`\r`, NBSP, Ogham space mark, U+2000-U+200A, line/paragraph separators,
narrow no-break space, medium mathematical space, ideographic space, BOM. -/
def isWs (c : Char) : Bool :=
  c = ' ' || c = '\t' || c = '\n' || c = '\r' ||
  c.toNat = 0x0b || c.toNat = 0x0c || c.toNat = 0xa0 || c.toNat = 0x1680 ||
  (0x2000 ≤ c.toNat && c.toNat ≤ 0x200a) ||
  c.toNat = 0x2028 || c.toNat = 0x2029 || c.toNat = 0x202f || c.toNat = 0x205f ||
  c.toNat = 0x3000 || c.toNat = 0xfeff

/-- Length of the maximal leading whitespace run (a greedy `\s*`). -/
def wsCount : List Char → Nat
  | [] => 0
  | c :: r => if isWs c then wsCount r + 1 else 0

def dropWs (l : List Char) : List Char := l.drop (wsCount l)

/-- JS `String.prototype.trim`. -/
def jsTrim (l : List Char) : List Char :=
  ((l.dropWhile isWs).reverse.dropWhile isWs).reverse

/-- JS `String.prototype.split('\n')`. -/
def splitNl : List Char → List (List Char)
  | [] => [[]]
  | c :: r =>
      if c = '\n' then [] :: splitNl r
      else
        match splitNl r with
        | [] => [[c]]
        | s :: rest => (c :: s) :: rest

/-- JS `Array.prototype.join('\n')`. -/
def joinNl : List (List Char) → List Char
  | [] => []
  | [s] => s
  | s :: rest => s ++ '\n' :: joinNl rest

def readTok : List Char := ['阅', '读', '文', '本']
def choiceTok : List Char := ['选', '择', '题']
def answerTok : List Char := ['答', '案']
def markerToks : List (List Char) := [readTok, choiceTok, answerTok]

/-- The alternation tries `阅读文本`, then `选择题`, then `答案`. -/
def findTok (l : List Char) : Option (List Char) :=
  if readTok.isPrefixOf l then some readTok
  else if choiceTok.isPrefixOf l then some choiceTok
  else if answerTok.isPrefixOf l then some answerTok
  else none

/-- Try to match `\s*<marker>\s*` at the start of `l`; on success return the
length of the match.  Since no marker starts with whitespace, the greedy
leading `\s*` can only stop at the end of the whitespace run. -/
def matchDelim (l : List Char) : Option Nat :=
  match findTok (l.drop (wsCount l)) with
  | some t => some (wsCount l + t.length + wsCount ((l.drop (wsCount l)).drop t.length))
  | none => none

/-- The scan loop of `String.prototype.split(regex)`: try the delimiter at
each position (leftmost match); on a match close the current segment and
continue after the match. -/
def splitAux : Nat → List Char → List Char → List (List Char)
  | 0, _, acc => [acc.reverse]
  | _ + 1, [], acc => [acc.reverse]
  | fuel + 1, c :: r, acc =>
      match matchDelim (c :: r) with
      | some n => acc.reverse :: splitAux fuel ((c :: r).drop n) []
      | none => splitAux fuel r (c :: acc)

/-- `content.split(/\s*阅读文本\s*|\s*选择题\s*|\s*答案\s*/)`. -/
def splitMarkers (l : List Char) : List (List Char) := splitAux l.length l []

/-- Number of delimiter matches found by the same scan. -/
def countD : Nat → List Char → Nat
  | 0, _ => 0
  | _ + 1, [] => 0
  | fuel + 1, c :: r =>
      match matchDelim (c :: r) with
      | some n => countD fuel ((c :: r).drop n) + 1
      | none => countD fuel r

/-- `[.、]`. -/
def dotChar (c : Char) : Bool := c = '.' || c = '、'

/-- All ways to split `l` as `g ++ ws* ++ m ++ dot ++ rest`, in increasing
order of `|g|` — the candidate list a lazy `(.*?)\s*<m>[.、]` walks through. -/
def splitsFor (m : Char) (l : List Char) : List (List Char × List Char) :=
  (List.range (l.length + 1)).filterMap fun e =>
    let r := l.drop e
    match r.drop (wsCount r) with
    | c :: d :: rest => if c = m && dotChar d then some (l.take e, rest) else none
    | _ => none

/-- The lookahead `(?=\d+[.、]|$)`. -/
def lookaheadOk (l : List Char) : Bool :=
  match l with
  | [] => true
  | _ =>
      let ds := l.takeWhile Char.isDigit
      !ds.isEmpty &&
        match l.drop ds.length with
        | d :: _ => dotChar d
        | [] => false

/-- Split at the first position satisfying the lookahead (the lazy final
`(.*?)(?=\d+[.、]|$)`; the position `|l|` always qualifies). -/
def lastSplit : List Char → List Char × List Char
  | [] => ([], [])
  | c :: r =>
      if lookaheadOk (c :: r) then ([], c :: r)
      else
        let p := lastSplit r
        (c :: p.1, p.2)

structure QParse where
  questionText : List Char
  optionA : List Char
  optionB : List Char
  optionC : List Char
  deriving Repr, DecidableEq

/-- One attempt of the question regex at the start of `l`: `(\d+)[.、]`, then
the three lazily-delimited groups (backtracking to a later `A`/`B` candidate
when no later marker completes the match — `findSome?` over the ascending
candidate lists), then the lazy tail up to the lookahead.  Returns the parsed
question (groups trimmed as the handler does) and the rest of the input. -/
def matchQuestionAt (l : List Char) : Option (QParse × List Char) :=
  let ds := l.takeWhile Char.isDigit
  if ds.isEmpty then none
  else
    match l.drop ds.length with
    | d :: afterDot =>
        if dotChar d then
          (splitsFor 'A' (dropWs afterDot)).findSome? fun ga =>
            (splitsFor 'B' (dropWs ga.2)).findSome? fun gb =>
              (splitsFor 'C' (dropWs gb.2)).findSome? fun gc =>
                let gd := lastSplit (dropWs gc.2)
                some (⟨jsTrim ga.1, jsTrim gb.1, jsTrim gc.1, jsTrim gd.1⟩, gd.2)
        else none
    | [] => none

/-- The `while ((match = questionRegex.exec(...)))` loop: leftmost matches,
resuming after each match. -/
def execQuestions : Nat → List Char → List QParse
  | 0, _ => []
  | _ + 1, [] => []
  | fuel + 1, c :: r =>
      match matchQuestionAt (c :: r) with
      | some (q, rest) => q :: execQuestions fuel rest
      | none => execQuestions fuel r

/-- One attempt of the answer regex `(\d+)\s*[.、]\s*([ABC])\s*` at the start
of `l`: returns the digit group, the letter, and the rest after the match. -/
def matchAnswerAt (l : List Char) : Option (List Char × Char × List Char) :=
  let ds := l.takeWhile Char.isDigit
  if ds.isEmpty then none
  else
    match dropWs (l.drop ds.length) with
    | d :: r3 =>
        if dotChar d then
          match dropWs r3 with
          | a :: r5 =>
              if a = 'A' || a = 'B' || a = 'C' then some (ds, a, dropWs r5)
              else none
          | [] => none
        else none
    | [] => none

/-- The `while ((match = answerRegex.exec(...)))` loop, yielding the raw
matches in order. -/
def execAnswersRaw : Nat → List Char → List (List Char × Char)
  | 0, _ => []
  | _ + 1, [] => []
  | fuel + 1, c :: r =>
      match matchAnswerAt (c :: r) with
      | some (num, a, rest) => (num, a) :: execAnswersRaw fuel rest
      | none => execAnswersRaw fuel r

/-- `answers[questionNum] = option`: a later match overwrites an earlier one
with the same key, so the association list stays duplicate-free and its
length is `Object.keys(answers).length`. -/
def insertAnswer (m : List (List Char × Char)) (k : List Char) (v : Char) :
    List (List Char × Char) :=
  if m.any (fun p => p.1 = k) then m.map (fun p => if p.1 = k then (k, v) else p)
  else m ++ [(k, v)]

def buildAnswers (raw : List (List Char × Char)) : List (List Char × Char) :=
  raw.foldl (fun m p => insertAnswer m p.1 p.2) []

def lookupAnswer (m : List (List Char × Char)) (k : List Char) : Option Char :=
  (m.find? (fun p => p.1 = k)).map (fun p => p.2)

/-- `contentParts[1].trim()` (the passage section; `getD` models the indexing
that the handler only performs after checking `contentParts.length >= 4`). -/
def passageTextOf (content : String) : List Char :=
  jsTrim ((splitMarkers content.data).getD 1 [])

/-- `contentParts[2].trim()` (the question section). -/
def questionsTextOf (content : String) : List Char :=
  jsTrim ((splitMarkers content.data).getD 2 [])

/-- `contentParts[3].trim()` (the answer section). -/
def answersTextOf (content : String) : List Char :=
  jsTrim ((splitMarkers content.data).getD 3 [])

def passageLines (content : String) : List (List Char) :=
  splitNl (passageTextOf content)

/-- `lines[0].trim()`. -/
def titleOf (content : String) : List Char :=
  jsTrim ((passageLines content).getD 0 [])

/-- `lines.slice(1).join('\n').trim()`. -/
def bodyOf (content : String) : List Char :=
  jsTrim (joinNl ((passageLines content).drop 1))

/-- The question list produced by the question-regex loop on section 2. -/
def parsedQuestions (content : String) : List QParse :=
  execQuestions (questionsTextOf content).length (questionsTextOf content)

/-- The raw `(number, letter)` matches of the answer-regex loop on section 3. -/
def parsedAnswersRaw (content : String) : List (List Char × Char) :=
  execAnswersRaw (answersTextOf content).length (answersTextOf content)

/-- The `answers` object: question-number key → letter, last write wins. -/
def parsedAnswers (content : String) : List (List Char × Char) :=
  buildAnswers (parsedAnswersRaw content)

/-- The error answers of the import handler; every one of them is sent with
`res.status(400)`. -/
inductive ImportErr where
  /-- `内容不能为空` -/
  | emptyContent
  /-- `格式错误：请确保包含阅读文本、选择题和答案三个部分` -/
  | missingMarkers
  /-- `阅读文本部分格式错误：阅读文本不能为空` (dead: `split` is never empty) -/
  | emptyPassage
  /-- `阅读文本部分格式错误：请确保第一行为有效的标题` -/
  | emptyTitle
  /-- `阅读文本部分格式错误：请确保标题后有正文内容` -/
  | emptyBody
  /-- `选择题部分格式错误：没有找到有效的选择题…` -/
  | noQuestions
  /-- `选择题部分格式错误：第i题题目内容不能为空` -/
  | emptyQuestionText (i : Nat)
  /-- `选择题部分格式错误：第i题选项不完整…` -/
  | incompleteOptions (i : Nat)
  /-- `答案部分格式错误：没有找到有效的答案…` -/
  | noAnswers
  /-- `答案部分格式错误：…不是有效的选项` (dead: the regex only yields A/B/C) -/
  | invalidAnswerLetters
  /-- `格式错误：题目数量(q)和答案数量(a)不匹配` -/
  | countMismatch (q a : Nat)
  /-- `答案部分格式错误：缺少第n题的答案` -/
  | missingAnswer (n : Nat)
  deriving Repr, DecidableEq

/-- The HTTP status each import error is answered with (every `return
res.status(400).json(...)` of the parse/validation phase). -/
def ImportErr.status : ImportErr → Nat
  | .emptyContent => 400
  | .missingMarkers => 400
  | .emptyPassage => 400
  | .emptyTitle => 400
  | .emptyBody => 400
  | .noQuestions => 400
  | .emptyQuestionText _ => 400
  | .incompleteOptions _ => 400
  | .noAnswers => 400
  | .invalidAnswerLetters => 400
  | .countMismatch _ _ => 400
  | .missingAnswer _ => 400

/-- The per-question completeness loop (`for i`: empty question text first,
then incomplete options, reporting the 1-based index of the first failure). -/
def validateQuestions : Nat → List QParse → Option ImportErr
  | _, [] => none
  | i, q :: rest =>
      if q.questionText = [] then some (.emptyQuestionText (i + 1))
      else if q.optionA = [] ∨ q.optionB = [] ∨ q.optionC = [] then
        some (.incompleteOptions (i + 1))
      else validateQuestions (i + 1) rest

/-- The coverage loop: the first `i < total` with no answer under the key
`(i+1).toString()`. -/
def checkCoverage (total : Nat) (m : List (List Char × Char)) : Option Nat :=
  (List.range total).findSome? fun i =>
    match lookupAnswer m (Nat.repr (i + 1)).data with
    | none => some (i + 1)
    | some _ => none

structure PassageIns where
  title : List Char
  content : List Char
  deriving Repr, DecidableEq

structure QuestionIns where
  question_text : List Char
  option_a : List Char
  option_b : List Char
  option_c : List Char
  correct_answer : Char
  deriving Repr, DecidableEq

/-- The `questions.forEach` insert loop: row `index` gets the answer under
key `(index+1).toString()`; a missing answer is skipped (`failedCount++`),
which the earlier coverage check has already ruled out. -/
def buildQuestionRows (qs : List QParse) (m : List (List Char × Char)) :
    List QuestionIns :=
  qs.enum.filterMap fun p =>
    match lookupAnswer m (Nat.repr (p.1 + 1)).data with
    | none => none
    | some a => some ⟨p.2.questionText, p.2.optionA, p.2.optionB, p.2.optionC, a⟩

/-- `POST /api/reading/import` up to (and excluding) the database writes:
either the first validation error, or the passage row and question rows to be
inserted. -/
def readingImport (content : String) :
    Except ImportErr (PassageIns × List QuestionIns) :=
  if content = "" then .error .emptyContent
  else if (splitMarkers content.data).length < 4 then .error .missingMarkers
  else if (passageLines content).length < 1 then .error .emptyPassage
  else if titleOf content = [] then .error .emptyTitle
  else if bodyOf content = [] then .error .emptyBody
  else if (parsedQuestions content).length = 0 then .error .noQuestions
  else
    match validateQuestions 0 (parsedQuestions content) with
    | some e => .error e
    | none =>
        if (parsedAnswers content).length = 0 then .error .noAnswers
        else if ((parsedAnswersRaw content).filter
            (fun p => ¬ (p.2 = 'A' ∨ p.2 = 'B' ∨ p.2 = 'C'))).length ≠ 0 then
          .error .invalidAnswerLetters
        else if (parsedQuestions content).length ≠ (parsedAnswers content).length then
          .error (.countMismatch (parsedQuestions content).length
            (parsedAnswers content).length)
        else
          match checkCoverage (parsedQuestions content).length (parsedAnswers content) with
          | some n => .error (.missingAnswer n)
          | none =>
              .ok (⟨titleOf content, bodyOf content⟩,
                buildQuestionRows (parsedQuestions content) (parsedAnswers content))

structure RPassageRow where
  id : Nat
  title : List Char
  content : List Char
  exposure : Nat
  deriving Repr, DecidableEq

structure RQuestionRow where
  id : Nat
  passage_id : Nat
  question_text : List Char
  option_a : List Char
  option_b : List Char
  option_c : List Char
  correct_answer : Char
  deriving Repr, DecidableEq

structure RStore where
  passages : List RPassageRow
  questions : List RQuestionRow
  nextPassageId : Nat
  nextQuestionId : Nat
  deriving Repr, DecidableEq

def emptyRStore : RStore := ⟨[], [], 1, 1⟩

inductive ImportResp where
  | err (status : Nat) (e : ImportErr)
  /-- `{success_count, total_questions}` -/
  | ok (success_count total_questions : Nat)
  deriving Repr, DecidableEq

/-- The import handler including the transactional persist step: on any
validation error nothing is written; otherwise one passage row and the
question rows are inserted. -/
def importOnStore (s : RStore) (content : String) : RStore × ImportResp :=
  match readingImport content with
  | .error e => (s, .err e.status e)
  | .ok (p, qs) =>
      ({ passages := s.passages ++ [⟨s.nextPassageId, p.title, p.content, 0⟩],
         questions := s.questions ++ qs.enum.map (fun t =>
           ⟨s.nextQuestionId + t.1, s.nextPassageId, t.2.question_text,
            t.2.option_a, t.2.option_b, t.2.option_c, t.2.correct_answer⟩),
         nextPassageId := s.nextPassageId + 1,
         nextQuestionId := s.nextQuestionId + qs.length },
       .ok 1 qs.length)

/-- The spec's importer round-trip example. -/
def exampleImport : String := "阅读文本\nTitle\nBody\n选择题\n1. Q1? A. a B. b C. c\n答案\n1. A"

/-- C4: on the example input the importer succeeds, persisting exactly one
passage titled `Title` with body `Body` and exactly one question `Q1?` with
options `a`, `b`, `c` and correct answer `A`. -/
theorem import_example_input :
    readingImport exampleImport =
      .ok (⟨"Title".data, "Body".data⟩,
        [⟨"Q1?".data, "a".data, "b".data, "c".data, 'A'⟩]) ∧
    (importOnStore emptyRStore exampleImport).1.passages =
      [⟨1, "Title".data, "Body".data, 0⟩] ∧
    (importOnStore emptyRStore exampleImport).1.questions =
      [⟨1, 1, "Q1?".data, "a".data, "b".data, "c".data, 'A'⟩] ∧
    (importOnStore emptyRStore exampleImport).2 = .ok 1 1 := by
  refine ⟨rfl, by decide, by decide, by decide⟩

/-! ### The marker split: segment count versus marker occurrences (C6) -/

/-- "The markers are all present in order": the text decomposes around
`阅读文本`, `选择题`, `答案` in this order. -/
def markersInOrder (content : String) : Prop :=
  ∃ a b c d : List Char,
    content.data = a ++ readTok ++ b ++ choiceTok ++ c ++ answerTok ++ d

def allWs (l : List Char) : Prop := ∀ c ∈ l, isWs c = true

/-- The split produces one segment more than the number of delimiter
matches. -/
lemma splitAux_length (fuel : Nat) :
    ∀ l acc, (splitAux fuel l acc).length = countD fuel l + 1 := by
  induction fuel with
  | zero => intro l acc; rfl
  | succ fuel ih =>
      intro l acc
      cases l with
      | nil => rfl
      | cons c r =>
          have e1 : splitAux (fuel + 1) (c :: r) acc =
              (match matchDelim (c :: r) with
               | some n => acc.reverse :: splitAux fuel ((c :: r).drop n) []
               | none => splitAux fuel r (c :: acc)) := rfl
          have e2 : countD (fuel + 1) (c :: r) =
              (match matchDelim (c :: r) with
               | some n => countD fuel ((c :: r).drop n) + 1
               | none => countD fuel r) := rfl
          rw [e1, e2]
          cases hm : matchDelim (c :: r) with
          | some n => simp [ih]
          | none => simp [ih]

lemma take_wsCount_allWs (l : List Char) : allWs (l.take (wsCount l)) := by
  induction l with
  | nil => intro c hc; cases hc
  | cons a r ih =>
      by_cases ha : isWs a
      · rw [wsCount, if_pos ha]
        intro c hc
        rcases List.mem_cons.mp (by simpa using hc) with rfl | hc2
        · exact ha
        · exact ih c hc2
      · rw [wsCount, if_neg ha]
        intro c hc
        cases hc

lemma isPrefixOf_drop (p : List Char) :
    ∀ l, p.isPrefixOf l = true → l = p ++ l.drop p.length := by
  induction p with
  | nil => intro l _; simp
  | cons a p' ih =>
      intro l h
      cases l with
      | nil => simp [List.isPrefixOf] at h
      | cons b l' =>
          simp only [List.isPrefixOf, Bool.and_eq_true, beq_iff_eq] at h
          obtain ⟨rfl, h2⟩ := h
          simpa using ih l' h2

lemma isPrefixOf_append_self (p r : List Char) : p.isPrefixOf (p ++ r) = true := by
  induction p with
  | nil => simp [List.isPrefixOf]
  | cons a p ih => simp [List.isPrefixOf, ih]

lemma findTok_some (l t : List Char) (h : findTok l = some t) :
    t ∈ markerToks ∧ l = t ++ l.drop t.length := by
  unfold findTok at h
  split_ifs at h with h1 h2 h3
  · cases h
    exact ⟨by simp [markerToks], isPrefixOf_drop _ _ h1⟩
  · cases h
    exact ⟨by simp [markerToks], isPrefixOf_drop _ _ h2⟩
  · cases h
    exact ⟨by simp [markerToks], isPrefixOf_drop _ _ h3⟩

lemma tok_len_ge_two : ∀ t ∈ markerToks, 2 ≤ t.length := by decide

lemma tok_ne_nil : ∀ t ∈ markerToks, t ≠ [] := by decide

lemma tok_head_not_ws : ∀ t ∈ markerToks, isWs (t.headD 'x') = false := by decide

lemma tok_head_inj :
    ∀ t ∈ markerToks, ∀ u ∈ markerToks, t.headD 'x' = u.headD 'x' → t = u := by decide

lemma tok_head_notin_tail :
    ∀ t ∈ markerToks, ∀ u ∈ markerToks, t.headD 'x' ∉ u.tail := by decide

/-- Every successful delimiter match decomposes the input as
whitespace ++ marker ++ whitespace ++ tail, and consumes at least one
character. -/
lemma matchDelim_some (l : List Char) (n : Nat) (h : matchDelim l = some n) :
    1 ≤ n ∧ ∃ w1 t w2 tail, allWs w1 ∧ t ∈ markerToks ∧ allWs w2 ∧
      l = w1 ++ t ++ w2 ++ tail ∧ l.drop n = tail := by
  unfold matchDelim at h
  cases hf : findTok (l.drop (wsCount l)) with
  | none => rw [hf] at h; cases h
  | some t =>
      rw [hf] at h
      obtain ⟨htm, hteq⟩ := findTok_some _ _ hf
      have hn : n = wsCount l + t.length + wsCount ((l.drop (wsCount l)).drop t.length) := by
        cases h; rfl
      have h2 : 2 ≤ t.length := tok_len_ge_two t htm
      set k := wsCount l with hk
      set rest := (l.drop k).drop t.length with hrest
      set m := wsCount rest with hm
      refine ⟨by omega, l.take k, t, rest.take m, rest.drop m,
        hk ▸ take_wsCount_allWs l, htm, hm ▸ take_wsCount_allWs rest, ?_, ?_⟩
      · calc l = l.take k ++ l.drop k := (List.take_append_drop k l).symm
          _ = l.take k ++ (t ++ rest) := by rw [hteq]
          _ = l.take k ++ (t ++ (rest.take m ++ rest.drop m)) := by
              rw [List.take_append_drop]
          _ = l.take k ++ t ++ rest.take m ++ rest.drop m := by
              simp [List.append_assoc]
      · have hdd : ((l.drop k).drop t.length).drop m = l.drop (k + t.length + m) := by
          rw [List.drop_drop, List.drop_drop]
          congr 1
          omega
        rw [hn, hrest]
        exact hdd.symm

lemma isPrefixOf_cons_ne (a b : Char) (p l : List Char) (h : ¬ a = b) :
    (a :: p).isPrefixOf (b :: l) = false := by
  simp [List.isPrefixOf, h]

lemma findTok_read (r : List Char) : findTok (readTok ++ r) = some readTok := by
  unfold findTok
  rw [if_pos (isPrefixOf_append_self _ _)]

lemma findTok_choice (r : List Char) : findTok (choiceTok ++ r) = some choiceTok := by
  unfold findTok
  have h1 : readTok.isPrefixOf (choiceTok ++ r) = false := by
    simp only [readTok, choiceTok, List.cons_append]
    exact isPrefixOf_cons_ne _ _ _ _ (by decide)
  rw [h1, if_neg (by simp), if_pos (isPrefixOf_append_self _ _)]

lemma findTok_ans (r : List Char) : findTok (answerTok ++ r) = some answerTok := by
  unfold findTok
  have h1 : readTok.isPrefixOf (answerTok ++ r) = false := by
    simp only [readTok, answerTok, List.cons_append]
    exact isPrefixOf_cons_ne _ _ _ _ (by decide)
  have h2 : choiceTok.isPrefixOf (answerTok ++ r) = false := by
    simp only [choiceTok, answerTok, List.cons_append]
    exact isPrefixOf_cons_ne _ _ _ _ (by decide)
  rw [h1, if_neg (by simp), h2, if_neg (by simp),
    if_pos (isPrefixOf_append_self _ _)]

/-- A marker at the head of the input is always matched by the delimiter
scanner. -/
lemma matchDelim_ne_none (t r : List Char) (ht : t ∈ markerToks) :
    matchDelim (t ++ r) ≠ none := by
  rcases (by simpa [markerToks] using ht : t = readTok ∨ t = choiceTok ∨ t = answerTok)
    with rfl | rfl | rfl
  · have hws : wsCount (readTok ++ r) = 0 := by
      simp [readTok, wsCount, show isWs '阅' = false from by decide]
    unfold matchDelim
    rw [hws, List.drop_zero, findTok_read]
    simp
  · have hws : wsCount (choiceTok ++ r) = 0 := by
      simp [choiceTok, wsCount, show isWs '选' = false from by decide]
    unfold matchDelim
    rw [hws, List.drop_zero, findTok_choice]
    simp
  · have hws : wsCount (answerTok ++ r) = 0 := by
      simp [answerTok, wsCount, show isWs '答' = false from by decide]
    unfold matchDelim
    rw [hws, List.drop_zero, findTok_ans]
    simp

/-- `TokSeq l ts`: the markers `ts` occur in `l`, in this order and
disjointly. -/
inductive TokSeq : List Char → List (List Char) → Prop where
  | nil (l : List Char) : TokSeq l []
  | cons (l a t b : List Char) (ts : List (List Char)) (heq : l = a ++ t ++ b)
      (ht : t ∈ markerToks) (hb : TokSeq b ts) : TokSeq l (t :: ts)

lemma head_eq_of_append_cons {t b : List Char} {c : Char} {x : List Char}
    (htne : t ≠ []) (h : t ++ b = c :: x) : t.headD 'x' = c := by
  cases t with
  | nil => exact absurd rfl htne
  | cons th tt =>
      rw [List.cons_append] at h
      exact (List.cons.injEq _ _ _ _ ▸ h).1

/-- Leading whitespace cannot contribute to a marker sequence (markers start
with a non-whitespace character). -/
lemma tokSeq_drop_ws (w tail : List Char) (ts : List (List Char)) (hw : allWs w)
    (h : TokSeq (w ++ tail) ts) : TokSeq tail ts := by
  cases h with
  | nil => exact TokSeq.nil tail
  | cons _ a t b ts' heq ht hb =>
      rw [List.append_assoc] at heq
      rcases List.append_eq_append_iff.mp heq with ⟨m, hm1, hm2⟩ | ⟨m, hm1, hm2⟩
      · exact TokSeq.cons tail m t b ts' (by rw [hm2, List.append_assoc]) ht hb
      · cases m with
        | nil =>
            rw [List.nil_append] at hm2
            exact TokSeq.cons tail [] t b ts' (by simp [hm2]) ht hb
        | cons ch m' =>
            exfalso
            have hch : t.headD 'x' = ch :=
              head_eq_of_append_cons (tok_ne_nil t ht) (by simpa using hm2)
            have hchw : isWs ch = true := hw ch (by rw [hm1]; simp)
            have hnw := tok_head_not_ws t ht
            rw [hch, hchw] at hnw
            cases hnw

/-- After a delimiter match `w1 ++ tok ++ w2`, a marker sequence of the whole
input either survives in the tail, or its first marker was the matched one.
The key facts: the three markers are pairwise character-disjoint with
distinct characters, so two marker occurrences coincide or are disjoint; and
no marker contains whitespace. -/
lemma tokSeq_after_delim (a t b w1 tok w2 tail : List Char) (ts' : List (List Char))
    (ht : t ∈ markerToks) (htok : tok ∈ markerToks)
    (hw1 : allWs w1) (hw2 : allWs w2)
    (heq : a ++ t ++ b = w1 ++ tok ++ w2 ++ tail)
    (hb : TokSeq b ts') :
    TokSeq tail ts' ∨ TokSeq tail (t :: ts') := by
  have heq' : a ++ (t ++ b) = w1 ++ (tok ++ (w2 ++ tail)) := by
    simpa [List.append_assoc] using heq
  have htne := tok_ne_nil t ht
  have hcontra : ∀ ch : Char, t.headD 'x' = ch → isWs ch = true → False := by
    intro ch h1 h2
    have hnw := tok_head_not_ws t ht
    rw [h1, h2] at hnw
    cases hnw
  rcases List.append_eq_append_iff.mp heq' with ⟨m, hm1, hm2⟩ | ⟨m, hm1, hm2⟩
  · -- w1 = a ++ m and t ++ b = m ++ (tok ++ (w2 ++ tail))
    cases m with
    | nil =>
        rw [List.nil_append] at hm2
        -- t ++ b = tok ++ (w2 ++ tail): the two markers start at the same
        -- position, hence are equal
        have htokne := tok_ne_nil tok htok
        obtain ⟨tokh, tokt, htokeq⟩ : ∃ c cs, tok = c :: cs := by
          cases tok with
          | nil => exact absurd rfl htokne
          | cons c cs => exact ⟨c, cs, rfl⟩
        have hm2' : t ++ b = tokh :: (tokt ++ (w2 ++ tail)) := by
          rw [hm2, htokeq]
          simp
        have hth := head_eq_of_append_cons htne hm2'
        have hhead : t.headD 'x' = tok.headD 'x' := by
          rw [hth, htokeq]
          rfl
        have hteq : t = tok := tok_head_inj t ht tok htok hhead
        subst hteq
        have hbeq : b = w2 ++ tail := List.append_cancel_left hm2
        exact Or.inl (tokSeq_drop_ws w2 tail ts' hw2 (hbeq ▸ hb))
    | cons ch m' =>
        exfalso
        have hch : t.headD 'x' = ch := head_eq_of_append_cons htne (by simpa using hm2)
        exact hcontra ch hch (hw1 ch (by rw [hm1]; simp))
  · -- a = w1 ++ m and tok ++ (w2 ++ tail) = m ++ (t ++ b)
    rcases List.append_eq_append_iff.mp hm2 with ⟨m2, hm21, hm22⟩ | ⟨m2, hm21, hm22⟩
    · -- m = tok ++ m2 and w2 ++ tail = m2 ++ (t ++ b)
      rcases List.append_eq_append_iff.mp hm22 with ⟨m3, hm31, hm32⟩ | ⟨m3, hm31, hm32⟩
      · -- m2 = w2 ++ m3 and tail = m3 ++ (t ++ b)
        exact Or.inr (TokSeq.cons tail m3 t b ts' (by rw [hm32, List.append_assoc]) ht hb)
      · -- w2 = m2 ++ m3 and t ++ b = m3 ++ tail
        cases m3 with
        | nil =>
            rw [List.nil_append] at hm32
            exact Or.inr (TokSeq.cons tail [] t b ts' (by simp [hm32]) ht hb)
        | cons ch m3' =>
            exfalso
            have hch : t.headD 'x' = ch := head_eq_of_append_cons htne (by simpa using hm32)
            exact hcontra ch hch (hw2 ch (by rw [hm31]; simp))
    · -- tok = m ++ m2 and t ++ b = m2 ++ (w2 ++ tail)
      cases m2 with
      | nil =>
          rw [List.nil_append] at hm22
          -- t ++ b = w2 ++ tail
          cases hw2c : w2 with
          | nil =>
              rw [hw2c, List.nil_append] at hm22
              exact Or.inr (TokSeq.cons tail [] t b ts' (by simp [hm22]) ht hb)
          | cons ch w2' =>
              exfalso
              have hm22' : t ++ b = ch :: (w2' ++ tail) := by
                rw [hm22, hw2c, List.cons_append]
              have hch : t.headD 'x' = ch := head_eq_of_append_cons htne hm22'
              exact hcontra ch hch (hw2 ch (by rw [hw2c]; simp))
      | cons ch m2' =>
          have hch : t.headD 'x' = ch := head_eq_of_append_cons htne (by simpa using hm22)
          cases m with
          | nil =>
              -- tok = ch :: m2', the matched marker again starts where t does
              rw [List.nil_append] at hm21
              have hhead : t.headD 'x' = tok.headD 'x' := by rw [hm21, ← hch]; rfl
              have hteq : t = tok := tok_head_inj t ht tok htok hhead
              subst hteq
              rw [← hm21] at hm22
              have hbeq : b = w2 ++ tail := List.append_cancel_left hm22
              exact Or.inl (tokSeq_drop_ws w2 tail ts' hw2 (hbeq ▸ hb))
          | cons mh m'' =>
              exfalso
              have hmem : ch ∈ tok.tail := by
                rw [hm21]
                simp
              exact tok_head_notin_tail t ht tok htok (hch ▸ hmem)

/-- A sequence of `k` markers forces at least `k` delimiter matches. -/
lemma tokSeq_le_countD :
    ∀ fuel (l : List Char) (ts : List (List Char)),
      l.length ≤ fuel → TokSeq l ts → ts.length ≤ countD fuel l := by
  intro fuel
  induction fuel with
  | zero =>
      intro l ts hlen hseq
      cases hseq with
      | nil => simp
      | cons _ a t b ts' heq ht _ =>
          exfalso
          have h2 := tok_len_ge_two t ht
          have hl : l.length = 0 := Nat.le_zero.mp hlen
          rw [heq, List.length_append, List.length_append] at hl
          omega
  | succ fuel ih =>
      intro l ts hlen hseq
      cases hseq with
      | nil => simp
      | cons _ a t b ts' heq ht hb =>
          obtain ⟨c, r, rfl⟩ : ∃ c r, l = c :: r := by
            cases l with
            | nil =>
                exfalso
                have h2 := tok_len_ge_two t ht
                have h0 : (a ++ t ++ b).length = 0 := by rw [← heq]; rfl
                rw [List.length_append, List.length_append] at h0
                omega
            | cons c r => exact ⟨c, r, rfl⟩
          have ecount : countD (fuel + 1) (c :: r) =
              (match matchDelim (c :: r) with
               | some n => countD fuel ((c :: r).drop n) + 1
               | none => countD fuel r) := rfl
          rw [ecount]
          cases hm : matchDelim (c :: r) with
          | none =>
              cases ha : a with
              | nil =>
                  exfalso
                  rw [ha, List.nil_append] at heq
                  exact matchDelim_ne_none t b ht (heq ▸ hm)
              | cons x a' =>
                  rw [ha] at heq
                  have heq2 : c :: r = x :: (a' ++ t ++ b) := by simpa using heq
                  injection heq2 with hc1 hc2
                  have hseq' : TokSeq r (t :: ts') := TokSeq.cons r a' t b ts' hc2 ht hb
                  have hrlen : r.length ≤ fuel := by
                    simp at hlen
                    omega
                  simpa using ih r (t :: ts') hrlen hseq'
          | some n =>
              obtain ⟨hn1, w1, tok, w2, tail, hw1, htok, hw2, hdecomp, hdrop⟩ :=
                matchDelim_some (c :: r) n hm
              dsimp only
              rw [hdrop]
              have htail_len : tail.length ≤ fuel := by
                have hlen2 : ((c :: r).drop n).length = (c :: r).length - n := by simp
                rw [hdrop] at hlen2
                simp at hlen2 hlen
                omega
              have hcases := tokSeq_after_delim a t b w1 tok w2 tail ts' ht htok hw1 hw2
                (heq.symm.trans hdecomp) hb
              rcases hcases with h1 | h2
              · have := ih tail ts' htail_len h1
                simp
                omega
              · have := ih tail (t :: ts') htail_len h2
                simp at this ⊢
                omega

/-- C6 as amended: if the three markers are all present in order the split
yields at least 4 segments, and whenever the split yields fewer than 4
segments the importer fails with a ValidationError (status 400) before any
parsing of sections, leaving the store unchanged.  (The original claim's
converse — fewer than 4 segments *exactly when* the markers are not all
present in order — is refuted by the counterexample below: any 3 marker
occurrences, in any order, already produce 4 segments.) -/
theorem import_marker_split (content : String) :
    (markersInOrder content → 4 ≤ (splitMarkers content.data).length) ∧
    ((splitMarkers content.data).length < 4 →
      (∃ e, readingImport content = .error e ∧ e.status = 400) ∧
      ∀ s : RStore, (importOnStore s content).1 = s) := by
  constructor
  · rintro ⟨a, b, c, d, h⟩
    have hseq : TokSeq content.data [readTok, choiceTok, answerTok] := by
      refine TokSeq.cons _ a readTok (b ++ choiceTok ++ c ++ answerTok ++ d)
        _ ?_ (by simp [markerToks]) ?_
      · rw [h]
        simp [List.append_assoc]
      · refine TokSeq.cons _ b choiceTok (c ++ answerTok ++ d) _ ?_
          (by simp [markerToks]) ?_
        · simp [List.append_assoc]
        · exact TokSeq.cons _ c answerTok d _ rfl (by simp [markerToks]) (TokSeq.nil d)
    have hcount := tokSeq_le_countD content.data.length content.data
      [readTok, choiceTok, answerTok] (le_refl _) hseq
    unfold splitMarkers
    rw [splitAux_length content.data.length content.data []]
    have h3 : ([readTok, choiceTok, answerTok] : List (List Char)).length = 3 := rfl
    rw [h3] at hcount
    omega
  · intro hlt
    have hmain : ∃ e, readingImport content = .error e ∧ e.status = 400 := by
      unfold readingImport
      by_cases hc : content = ""
      · rw [if_pos hc]
        exact ⟨_, rfl, rfl⟩
      · rw [if_neg hc, if_pos hlt]
        exact ⟨_, rfl, rfl⟩
    refine ⟨hmain, fun s => ?_⟩
    obtain ⟨e, he, _⟩ := hmain
    unfold importOnStore
    rw [he]

theorem import_marker_split_witness :
    4 ≤ (splitMarkers exampleImport.data).length ∧
    (∃ e, readingImport "x" = .error e ∧ e.status = 400) := by
  constructor
  · exact (import_marker_split exampleImport).1
      ⟨[], "\nTitle\nBody\n".data, "\n1. Q1? A. a B. b C. c\n".data, "\n1. A".data,
        by decide⟩
  · exact ((import_marker_split "x").2 (by decide)).1

def noMarkersOrderInput : String := "答案答案答案"

/-- C6 counterexample: `答案答案答案` does not contain the markers in order
(`阅读文本` does not occur at all), yet the split yields 4 segments, not
fewer — refuting "fewer than 4 segments exactly when the markers are not all
present in order". -/
theorem import_marker_split_counterexample :
    ¬ markersInOrder noMarkersOrderInput ∧
    ¬ ((splitMarkers noMarkersOrderInput.data).length < 4) := by
  constructor
  · rintro ⟨a, b, c, d, h⟩
    have hmem : '阅' ∈ noMarkersOrderInput.data := by
      rw [h]
      simp [readTok]
    revert hmem
    decide
  · decide

lemma importErr_status (e : ImportErr) : e.status = 400 := by
  cases e <;> rfl

/-- C5: whenever the number of parsed questions differs from the number of
parsed answers (distinct answer keys), the importer fails with a
ValidationError (status 400) — at the count check itself, or at one of the
earlier validation gates — and the store is unchanged: no passage row and no
question row is persisted. -/
theorem import_count_mismatch (content : String)
    (h : (parsedQuestions content).length ≠ (parsedAnswers content).length) :
    (∃ e, readingImport content = .error e ∧ e.status = 400) ∧
    ∀ s : RStore, (importOnStore s content).1 = s := by
  have hmain : ∃ e, readingImport content = .error e ∧ e.status = 400 := by
    unfold readingImport
    by_cases h1 : content = ""
    · rw [if_pos h1]
      exact ⟨_, rfl, rfl⟩
    rw [if_neg h1]
    by_cases h2 : (splitMarkers content.data).length < 4
    · rw [if_pos h2]
      exact ⟨_, rfl, rfl⟩
    rw [if_neg h2]
    by_cases h3 : (passageLines content).length < 1
    · rw [if_pos h3]
      exact ⟨_, rfl, rfl⟩
    rw [if_neg h3]
    by_cases h4 : titleOf content = []
    · rw [if_pos h4]
      exact ⟨_, rfl, rfl⟩
    rw [if_neg h4]
    by_cases h5 : bodyOf content = []
    · rw [if_pos h5]
      exact ⟨_, rfl, rfl⟩
    rw [if_neg h5]
    by_cases h6 : (parsedQuestions content).length = 0
    · rw [if_pos h6]
      exact ⟨_, rfl, rfl⟩
    rw [if_neg h6]
    cases h7 : validateQuestions 0 (parsedQuestions content) with
    | some e =>
        dsimp only
        exact ⟨e, rfl, importErr_status e⟩
    | none =>
        dsimp only
        by_cases h8 : (parsedAnswers content).length = 0
        · rw [if_pos h8]
          exact ⟨_, rfl, rfl⟩
        rw [if_neg h8]
        by_cases h9 : ((parsedAnswersRaw content).filter
            (fun p => ¬ (p.2 = 'A' ∨ p.2 = 'B' ∨ p.2 = 'C'))).length ≠ 0
        · rw [if_pos h9]
          exact ⟨_, rfl, rfl⟩
        rw [if_neg h9, if_pos h]
        exact ⟨_, rfl, rfl⟩
  refine ⟨hmain, fun s => ?_⟩
  obtain ⟨e, he, _⟩ := hmain
  unfold importOnStore
  rw [he]

/-- One question but two answers. -/
def mismatchInput : String := "阅读文本\nT\nB\n选择题\n1. Q? A. a B. b C. c\n答案\n1. A 2. B"

theorem import_count_mismatch_witness :
    (∃ e, readingImport mismatchInput = .error e ∧ e.status = 400) ∧
    (importOnStore emptyRStore mismatchInput).1 = emptyRStore :=
  ⟨(import_count_mismatch mismatchInput (by decide)).1,
   (import_count_mismatch mismatchInput (by decide)).2 emptyRStore⟩

/-! ### `POST /api/reading/submit-answers` (C8, C10)

`score = Math.round((correctCount / totalQuestions) * 100)` — with zero
questions this is `Math.round(NaN) = NaN`.  JS numbers are modelled by
`JsNum`: exact rationals, plus the `NaN`/`Infinity` values this computation
can produce. -/

inductive JsNum where
  | nan
  | posInf
  | val (q : ℚ)
  deriving Repr, DecidableEq

/-- JS division of the two counters: `0/0 = NaN`, `c/0 = Infinity` (c > 0). -/
def jsDivNat (c t : Nat) : JsNum :=
  if t = 0 then (if c = 0 then .nan else .posInf) else .val ((c : ℚ) / (t : ℚ))

def jsMul100 : JsNum → JsNum
  | .nan => .nan
  | .posInf => .posInf
  | .val q => .val (q * 100)

/-- `Math.round`: half-up on finite values; `NaN`/`Infinity` pass through. -/
def jsRound : JsNum → JsNum
  | .nan => .nan
  | .posInf => .posInf
  | .val q => .val ((⌊q + 1 / 2⌋ : ℤ) : ℚ)

def jsScore (c t : Nat) : JsNum := jsRound (jsMul100 (jsDivNat c t))

/-- A `test_results` row as the handler binds it. -/
structure TRRow where
  score : JsNum
  total_words : Nat
  correct_count : Nat
  incorrect_count : Nat
  type : String
  deriving Repr, DecidableEq

structure SubmitResp where
  success : Bool
  score : JsNum
  correctCount : Nat
  totalQuestions : Nat
  deriving Repr, DecidableEq

/-- `SELECT id, correct_answer FROM reading_questions WHERE passage_id = ?`
(the handler never consults `reading_passages`, so an absent passage behaves
exactly like one with zero questions). -/
def questionsFor (s : RStore) (pid : Nat) : List RQuestionRow :=
  s.questions.filter (fun q => q.passage_id = pid)

/-- JS `String.prototype.toUpperCase` restricted to ASCII letters. -/
def jsUpper (s : String) : String := ⟨s.data.map Char.toUpper⟩

/-- `userAnswer && userAnswer.toUpperCase() === q.correct_answer.toUpperCase()`
(`undefined` and `""` are falsy). -/
def answerMatches (answers : List (Nat × String)) (q : RQuestionRow) : Bool :=
  match answers.lookup q.id with
  | none => false
  | some ua => ua ≠ "" && jsUpper ua == String.mk [q.correct_answer.toUpper]

structure SubmitOut where
  /-- the `test_results` table after the (attempted) insert -/
  results : List TRRow
  /-- the row the handler binds into the `INSERT` -/
  attempted : TRRow
  /-- the JSON answer (the per-question `results` array is omitted) -/
  resp : SubmitResp
  deriving Repr, DecidableEq

/-- The scoring-and-recording part of the handler.  A `NaN` score is bound as
SQL `NULL`, so the insert violates `score INTEGER NOT NULL` and writes
nothing — the handler only logs that error and responds success anyway. -/
def submitAnswers (s : RStore) (results : List TRRow) (pid : Nat)
    (answers : List (Nat × String)) : SubmitOut :=
  let qs := questionsFor s pid
  let correctCount := qs.foldl (fun acc q => if answerMatches answers q then acc + 1 else acc) 0
  let totalQuestions := qs.length
  let score := jsScore correctCount totalQuestions
  let row : TRRow := ⟨score, totalQuestions, correctCount,
    totalQuestions - correctCount, "reading-comprehension"⟩
  { results := if score = .nan then results else results ++ [row],
    attempted := row,
    resp := ⟨true, score, correctCount, totalQuestions⟩ }

inductive SubmitResult where
  /-- 400, `缺少必要的参数` (falsy `passageId` or missing `answers`) -/
  | badRequest
  | ok (out : SubmitOut)
  deriving Repr, DecidableEq

def submitAnswersReq (s : RStore) (results : List TRRow) (pid : Nat)
    (answers : List (Nat × String)) : SubmitResult :=
  if pid = 0 then .badRequest
  else .ok (submitAnswers s results pid answers)

lemma foldl_count_eq_filter_length {α : Type} (p : α → Bool) :
    ∀ (l : List α) (n : Nat),
      l.foldl (fun acc q => if p q then acc + 1 else acc) n = n + (l.filter p).length := by
  intro l
  induction l with
  | nil => intro n; simp
  | cons a l ih =>
      intro n
      by_cases hp : p a
      · simp [hp, ih]
        omega
      · simp [hp, ih]

/-- C8: for a passage with at least one question, the returned score, the
score bound into the recorded `test_results` row, and the recorded row itself
all use `round(correct/total × 100)` (half-up), where `correct` counts the
submitted answers matching the stored `correct_answer` case-insensitively and
`total` is the passage's question count. -/
theorem submit_score_formula (s : RStore) (results : List TRRow) (pid : Nat)
    (answers : List (Nat × String)) (hpid : pid ≠ 0)
    (hq : questionsFor s pid ≠ []) :
    ∃ out, submitAnswersReq s results pid answers = .ok out ∧
      out.resp.score =
        .val ((⌊(((questionsFor s pid).filter (answerMatches answers)).length : ℚ) /
          ((questionsFor s pid).length : ℚ) * 100 + 1 / 2⌋ : ℤ) : ℚ) ∧
      out.attempted =
        ⟨out.resp.score, (questionsFor s pid).length,
          ((questionsFor s pid).filter (answerMatches answers)).length,
          (questionsFor s pid).length -
            ((questionsFor s pid).filter (answerMatches answers)).length,
          "reading-comprehension"⟩ ∧
      out.results = results ++ [out.attempted] ∧
      out.resp.success = true ∧
      out.resp.correctCount =
        ((questionsFor s pid).filter (answerMatches answers)).length ∧
      out.resp.totalQuestions = (questionsFor s pid).length := by
  have ht : (questionsFor s pid).length ≠ 0 := by
    intro h0
    exact hq (List.length_eq_zero.mp h0)
  have hcount : (questionsFor s pid).foldl
      (fun acc q => if answerMatches answers q then acc + 1 else acc) 0 =
      ((questionsFor s pid).filter (answerMatches answers)).length := by
    simpa using foldl_count_eq_filter_length (answerMatches answers) (questionsFor s pid) 0
  have hscore : jsScore ((questionsFor s pid).filter (answerMatches answers)).length
      (questionsFor s pid).length =
      .val ((⌊(((questionsFor s pid).filter (answerMatches answers)).length : ℚ) /
        ((questionsFor s pid).length : ℚ) * 100 + 1 / 2⌋ : ℤ) : ℚ) := by
    unfold jsScore jsDivNat
    rw [if_neg ht]
    rfl
  refine ⟨submitAnswers s results pid answers, ?_, ?_, ?_, ?_, rfl, ?_, rfl⟩
  · unfold submitAnswersReq
    rw [if_neg hpid]
  · show (⟨true, jsScore _ _, _, _⟩ : SubmitResp).score = _
    rw [show (⟨true, jsScore ((questionsFor s pid).foldl
      (fun acc q => if answerMatches answers q then acc + 1 else acc) 0)
      (questionsFor s pid).length, _, _⟩ : SubmitResp).score = jsScore
      ((questionsFor s pid).foldl
        (fun acc q => if answerMatches answers q then acc + 1 else acc) 0)
      (questionsFor s pid).length from rfl, hcount, hscore]
  · unfold submitAnswers
    simp only [hcount, hscore]
  · unfold submitAnswers
    simp only [hcount, hscore]
    rw [if_neg (by simp)]
  · unfold submitAnswers
    simp only [hcount]

/-- The spec's submit-answers example: a passage with two questions whose
correct answers are both `A`. -/
def submitStoreEx : RStore :=
  ⟨[⟨1, "P".data, "body".data, 0⟩],
   [⟨1, 1, "q1".data, "x".data, "y".data, "z".data, 'A'⟩,
    ⟨2, 1, "q2".data, "x".data, "y".data, "z".data, 'A'⟩], 2, 3⟩

theorem submit_score_formula_witness :
    ∃ out, submitAnswersReq submitStoreEx [] 1 [(1, "A"), (2, "B")] = .ok out ∧
      out.resp.score = .val 50 := by
  obtain ⟨out, h1, h2, _⟩ := submit_score_formula submitStoreEx [] 1 [(1, "A"), (2, "B")]
    (by decide) (by decide)
  refine ⟨out, h1, ?_⟩
  rw [h2]
  have hc : ((questionsFor submitStoreEx 1).filter
      (answerMatches [(1, "A"), (2, "B")])).length = 1 := by decide
  have ht : (questionsFor submitStoreEx 1).length = 2 := by decide
  rw [hc, ht]
  norm_num

/-- C10: the score division is not guarded: for a passage id with no
questions (in particular a passage id that does not exist), the handler does
not answer 404 — it computes `Math.round((0/0) * 100) = NaN`, attempts to
insert a `test_results` row with that `NaN` score, and responds success with
`correctCount = 0` and `totalQuestions = 0`.  (A falsy `passageId` of 0 is
caught by the parameter check instead, hence `pid ≠ 0`.) -/
theorem submit_empty_passage (s : RStore) (results : List TRRow) (pid : Nat)
    (answers : List (Nat × String)) (hpid : pid ≠ 0)
    (hq : questionsFor s pid = []) :
    submitAnswersReq s results pid answers =
      .ok ⟨results, ⟨.nan, 0, 0, 0, "reading-comprehension"⟩, ⟨true, .nan, 0, 0⟩⟩ := by
  unfold submitAnswersReq submitAnswers
  rw [if_neg hpid]
  simp [hq, jsScore, jsDivNat, jsMul100, jsRound]

theorem submit_empty_passage_witness :
    submitAnswersReq emptyRStore [] 7 [] =
      .ok ⟨[], ⟨.nan, 0, 0, 0, "reading-comprehension"⟩, ⟨true, .nan, 0, 0⟩⟩ :=
  submit_empty_passage emptyRStore [] 7 [] (by decide) rfl

end VocabMaster
